import Mathlib

/-!
Verification of the lintblame core (harveyr/golintblame).

The Go source is shallowly embedded here:

* `time.Time` values are modelled as `Nat` (only ordering and equality of
  timestamps matter to the code under verification; the Go zero `time.Time`
  is modelled as `0`, so every real timestamp is positive).
* The Go map `map[string]time.Time` is modelled as an association list
  `List (String × Nat)`; the list order stands for the (arbitrary) Go map
  traversal order, and quantifying over all lists quantifies over all
  traversal orders.  Go maps hold at most one entry per key, which appears
  here as a `Nodup` hypothesis on the keys where needed.
* Calls into the operating system and into external processes
  (`os.Stat`, `ioutil.ReadFile`, `exec.Command(...).Output()`) are modelled
  by explicit collaborator arguments: a filesystem `String → Option Nat`
  for stat/mod-times, and captured raw output strings for the external
  tools (Go's `results, _ := cmd.Output()` discards the error and keeps
  whatever bytes were captured, so a plain `String` is the faithful model;
  a launch failure yields the empty string).
* `log.Fatal`/`log.Fatalf` terminate the process; functions that can reach
  them return `Except String _`, with `Except.error` marking the fatal stop.
  Likewise a Go runtime panic (index out of range, nil dereference) is an
  `Except.error`.
* The `regexp` patterns of the program are embedded as data (`Regex`) and
  executed by a fuelled backtracking matcher implementing Go's
  leftmost-first submatch semantics.
-/

/-- First value stored under a key in an association list
(Go map read `m[path]`). -/
def lookupKey (k : String) : List (String × Nat) → Option Nat
  | [] => none
  | (k', v) :: rest => if k' = k then some v else lookupKey k rest

/-- Store a value under a key in an association list, replacing the existing
entry if present (Go map write `m[path] = mt`). -/
def mapSet (k : String) (v : Nat) : List (String × Nat) → List (String × Nat)
  | [] => [(k, v)]
  | (k', v') :: rest => if k' = k then (k, v) :: rest else (k', v') :: mapSet k v rest

/-- `ModifiedTimes` from lintblame.go: the tracked-path snapshot.
`TimeMap` is the Go `map[string]time.Time`, as an association list whose
order is the traversal order. -/
structure ModifiedTimes where
  TimeMap : List (String × Nat)
deriving DecidableEq, Repr

/-- The loop body of `ModifiedTimes.SortaSorted`: Go iterates the map with a
running `mostRecentTime` (zero-valued at the start); an entry whose time is
strictly `After` the running maximum is appended and becomes the maximum,
any other entry is prepended. -/
def sortaAux : List (String × Nat) → List String → Nat → List String
  | [], acc, _ => acc
  | (p, t) :: rest, acc, most =>
    if most < t then sortaAux rest (acc ++ [p]) t
    else sortaAux rest (p :: acc) most

/-- `ModifiedTimes.SortaSorted` from lintblame.go (lines 247-260). -/
def ModifiedTimes.SortaSorted (m : ModifiedTimes) : List String :=
  sortaAux m.TimeMap [] 0

/-- `ModifiedTimes.Len` from lintblame.go: `len(m.TimeMap)`. -/
def ModifiedTimes.Len (m : ModifiedTimes) : Nat :=
  m.TimeMap.length

/-- `ModifiedTimes.CheckTime` from lintblame.go (lines 225-244).
`fs` models `os.Stat`: `fs path = some mt` means the path is readable with
modification time `mt`; `none` means `os.Stat` returned an error, in which
case the method returns `false` without touching the map.  Returns the
`hasChanged` flag together with the updated tracker. -/
def ModifiedTimes.CheckTime (fs : String → Option Nat) (m : ModifiedTimes)
    (path : String) : Bool × ModifiedTimes :=
  match fs path with
  | none => (false, m)
  | some mt =>
    match lookupKey path m.TimeMap with
    | some storedTime =>
      if storedTime ≠ mt then (true, ⟨mapSet path mt m.TimeMap⟩) else (false, m)
    | none => (true, ⟨mapSet path mt m.TimeMap⟩)

/-- Claim C1: the snapshot {a ↦ one day ago, b ↦ now, c ↦ two days ago}
(modelled with timestamps 2, 3, 1), traversed in order a, b, c, is ordered
by `SortaSorted` as exactly [c, a, b]: a is appended as a new running
maximum, b is appended as a strictly later new maximum, and c is prepended
because it is not after the running maximum. -/
theorem sortaSorted_day_example :
    ModifiedTimes.SortaSorted ⟨[("a", 2), ("b", 3), ("c", 1)]⟩ = ["c", "a", "b"] := by
  decide

lemma sortaAux_perm (l : List (String × Nat)) (acc : List String) (most : Nat) :
    (sortaAux l acc most).Perm (l.map Prod.fst ++ acc) := by
  induction l generalizing acc most with
  | nil => simp [sortaAux]
  | cons pt rest ih =>
    obtain ⟨p, t⟩ := pt
    by_cases h : most < t
    · simp only [sortaAux, if_pos h]
      refine (ih (acc ++ [p]) t).trans ?_
      have h1 : (rest.map Prod.fst ++ (acc ++ [p])).Perm
          (rest.map Prod.fst ++ (p :: acc)) :=
        List.Perm.append_left _ (List.perm_append_singleton p acc)
      refine h1.trans ?_
      exact @List.perm_middle _ p (rest.map Prod.fst) acc
    · simp only [sortaAux, if_neg h]
      refine (ih (p :: acc) most).trans ?_
      exact @List.perm_middle _ p (rest.map Prod.fst) acc

lemma sortaAux_all_prepend (l : List (String × Nat)) (acc : List String) (most : Nat)
    (h : ∀ pt ∈ l, ¬ most < pt.2) :
    sortaAux l acc most = (l.map Prod.fst).reverse ++ acc := by
  induction l generalizing acc with
  | nil => simp [sortaAux]
  | cons pt rest ih =>
    obtain ⟨p, t⟩ := pt
    have ht : ¬ most < t := h (p, t) (List.mem_cons_self _ _)
    simp only [sortaAux, if_neg ht]
    rw [ih (p :: acc) (fun q hq => h q (List.mem_cons_of_mem _ hq))]
    simp

lemma sortaAux_max_last (p0 : String) (t0 : Nat) (l2 : List (String × Nat))
    (h2 : ∀ pt ∈ l2, pt.2 ≤ t0) :
    ∀ (l1 : List (String × Nat)) (acc : List String) (most : Nat),
      most < t0 → (∀ pt ∈ l1, pt.2 < t0) →
      (sortaAux (l1 ++ (p0, t0) :: l2) acc most).getLast? = some p0 := by
  intro l1
  induction l1 with
  | nil =>
    intro acc most hm _
    simp only [List.nil_append, sortaAux, if_pos hm]
    rw [sortaAux_all_prepend l2 (acc ++ [p0]) t0 (fun q hq => not_lt.mpr (h2 q hq))]
    rw [← List.append_assoc]
    exact List.getLast?_concat _
  | cons qt rest ih =>
    intro acc most hm h1
    obtain ⟨q, s⟩ := qt
    have hs : s < t0 := h1 (q, s) (List.mem_cons_self _ _)
    have h1' : ∀ pt ∈ rest, pt.2 < t0 := fun pt hpt => h1 pt (List.mem_cons_of_mem _ hpt)
    by_cases h : most < s
    · simp only [List.cons_append, sortaAux, if_pos h]
      exact ih (acc ++ [q]) s hs h1'
    · simp only [List.cons_append, sortaAux, if_neg h]
      exact ih (q :: acc) most hm h1'

/-- Claim C2: for every non-empty snapshot whose timestamps are all strictly
after the zero time, whose keys are distinct (it is a map) and which holds a
unique most-recent entry `(p0, t0)`, and for every traversal order (the
association list IS the traversal order), `SortaSorted` returns a
permutation of the tracked paths (hence of length `Len`) whose last element
is the path with the most-recent timestamp. -/
theorem sortaSorted_perm_and_max_last (m : ModifiedTimes) (p0 : String) (t0 : Nat)
    (hmem : (p0, t0) ∈ m.TimeMap)
    (hkeys : (m.TimeMap.map Prod.fst).Nodup)
    (hpos : ∀ pt ∈ m.TimeMap, 0 < pt.2)
    (hmax : ∀ pt ∈ m.TimeMap, pt ≠ (p0, t0) → pt.2 < t0) :
    m.SortaSorted.Perm (m.TimeMap.map Prod.fst) ∧
    m.SortaSorted.length = m.Len ∧
    m.SortaSorted.getLast? = some p0 := by
  have hperm : m.SortaSorted.Perm (m.TimeMap.map Prod.fst) := by
    have h := sortaAux_perm m.TimeMap [] 0
    simpa [ModifiedTimes.SortaSorted] using h
  refine ⟨hperm, ?_, ?_⟩
  · rw [hperm.length_eq]
    simp [ModifiedTimes.Len]
  · obtain ⟨l1, l2, hdecomp⟩ := List.append_of_mem hmem
    have ht0 : 0 < t0 := hpos (p0, t0) hmem
    have hnod : (l1.map Prod.fst ++ p0 :: l2.map Prod.fst).Nodup := by
      have h := hkeys
      rw [hdecomp] at h
      simpa using h
    rw [List.nodup_append] at hnod
    have hp0l1 : p0 ∉ l1.map Prod.fst := fun hc =>
      hnod.2.2 hc (List.mem_cons_self _ _)
    have hp0l2 : p0 ∉ l2.map Prod.fst := (List.nodup_cons.mp hnod.2.1).1
    rw [hdecomp] at hmax
    have h1 : ∀ pt ∈ l1, pt.2 < t0 := by
      intro pt hpt
      have hne : pt ≠ (p0, t0) := by
        intro he
        subst he
        exact hp0l1 (List.mem_map_of_mem Prod.fst hpt)
      exact hmax pt (List.mem_append_left _ hpt) hne
    have h2 : ∀ pt ∈ l2, pt.2 ≤ t0 := by
      intro pt hpt
      have hne : pt ≠ (p0, t0) := by
        intro he
        subst he
        exact hp0l2 (List.mem_map_of_mem Prod.fst hpt)
      exact le_of_lt (hmax pt (List.mem_append_right _ (List.mem_cons_of_mem _ hpt)) hne)
    have hlast := sortaAux_max_last p0 t0 l2 h2 l1 [] 0 ht0 h1
    rw [ModifiedTimes.SortaSorted, hdecomp]
    exact hlast

/-- Witness for `sortaSorted_perm_and_max_last` on the snapshot
{x ↦ 5, y ↦ 9, z ↦ 4} traversed in order x, y, z: the result is a
permutation of [x, y, z] of length 3 ending in y, the most-recent path. -/
theorem sortaSorted_perm_and_max_last_witness :
    (ModifiedTimes.SortaSorted ⟨[("x", 5), ("y", 9), ("z", 4)]⟩).Perm
        (([("x", 5), ("y", 9), ("z", 4)] : List (String × Nat)).map Prod.fst) ∧
    (ModifiedTimes.SortaSorted ⟨[("x", 5), ("y", 9), ("z", 4)]⟩).length =
        ModifiedTimes.Len ⟨[("x", 5), ("y", 9), ("z", 4)]⟩ ∧
    (ModifiedTimes.SortaSorted ⟨[("x", 5), ("y", 9), ("z", 4)]⟩).getLast? = some "y" :=
  sortaSorted_perm_and_max_last ⟨[("x", 5), ("y", 9), ("z", 4)]⟩ "y" 9
    (by decide) (by decide) (by decide) (by decide)

lemma lookupKey_mapSet_self (k : String) (v : Nat) (l : List (String × Nat)) :
    lookupKey k (mapSet k v l) = some v := by
  induction l with
  | nil => simp [mapSet, lookupKey]
  | cons kv rest ih =>
    obtain ⟨k', v'⟩ := kv
    by_cases h : k' = k
    · simp [mapSet, lookupKey, h]
    · simp [mapSet, lookupKey, h, ih]

lemma lookupKey_mapSet_other (k q : String) (v : Nat) (l : List (String × Nat))
    (hne : q ≠ k) : lookupKey q (mapSet k v l) = lookupKey q l := by
  induction l with
  | nil =>
    simp only [mapSet, lookupKey]
    rw [if_neg (fun h => hne h.symm)]
  | cons kv rest ih =>
    obtain ⟨k', v'⟩ := kv
    by_cases h : k' = k
    · subst h
      simp only [mapSet, if_pos rfl, lookupKey]
      rw [if_neg (fun h => hne h.symm), if_neg (fun h => hne h.symm)]
    · simp only [mapSet, if_neg h, lookupKey]
      by_cases hq : k' = q
      · simp [hq]
      · simp [hq, ih]

lemma keys_mapSet (k : String) (v : Nat) (l : List (String × Nat)) :
    (mapSet k v l).map Prod.fst =
      if k ∈ l.map Prod.fst then l.map Prod.fst else l.map Prod.fst ++ [k] := by
  induction l with
  | nil => simp [mapSet]
  | cons kv rest ih =>
    obtain ⟨k', v'⟩ := kv
    by_cases h : k' = k
    · subst h
      simp [mapSet]
    · have hne : ¬ k = k' := fun he => h he.symm
      simp only [mapSet, if_neg h, List.map_cons, ih]
      by_cases hk : k ∈ rest.map Prod.fst
      · simp [hk, hne]
      · simp [hk, hne]

lemma nodup_keys_mapSet (k : String) (v : Nat) (l : List (String × Nat))
    (h : (l.map Prod.fst).Nodup) : ((mapSet k v l).map Prod.fst).Nodup := by
  rw [keys_mapSet]
  by_cases hk : k ∈ l.map Prod.fst
  · simpa [hk] using h
  · rw [if_neg hk]
    refine List.Nodup.append h (List.nodup_singleton k) ?_
    intro a ha hb
    rw [List.mem_singleton] at hb
    subst hb
    exact hk ha

/-- Claim C3: for a readable path (`fs path = some mt`), `CheckTime` returns
true iff the path is untracked or its on-disk timestamp differs from the
stored one; it rewrites the stored timestamp exactly when it returns true
(returning false leaves the whole tracker untouched); and an immediate
second call after any observation returns false. -/
theorem checkTime_observe_spec (fs : String → Option Nat) (m : ModifiedTimes)
    (path : String) (mt : Nat) (hfs : fs path = some mt) :
    ((m.CheckTime fs path).1 = true ↔ lookupKey path m.TimeMap ≠ some mt) ∧
    ((m.CheckTime fs path).1 = true →
      lookupKey path (m.CheckTime fs path).2.TimeMap = some mt) ∧
    ((m.CheckTime fs path).1 = false → (m.CheckTime fs path).2 = m) ∧
    ((m.CheckTime fs path).2.CheckTime fs path).1 = false := by
  cases hlk : lookupKey path m.TimeMap with
  | none =>
    simp [ModifiedTimes.CheckTime, hfs, hlk, lookupKey_mapSet_self]
  | some storedTime =>
    by_cases he : storedTime = mt
    · subst he
      simp [ModifiedTimes.CheckTime, hfs, hlk]
    · simp [ModifiedTimes.CheckTime, hfs, hlk, he, lookupKey_mapSet_self]

/-- Filesystem used in witnesses: every path is readable at time 7. -/
def fsW3 : String → Option Nat := fun _ => some 7

/-- Witness for `checkTime_observe_spec`: observing the untracked path
`p.go` on an empty tracker. -/
theorem checkTime_observe_spec_witness :
    ((ModifiedTimes.CheckTime fsW3 ⟨[]⟩ "p.go").1 = true ↔
      lookupKey "p.go" (ModifiedTimes.mk []).TimeMap ≠ some 7) ∧
    ((ModifiedTimes.CheckTime fsW3 ⟨[]⟩ "p.go").1 = true →
      lookupKey "p.go" (ModifiedTimes.CheckTime fsW3 ⟨[]⟩ "p.go").2.TimeMap = some 7) ∧
    ((ModifiedTimes.CheckTime fsW3 ⟨[]⟩ "p.go").1 = false →
      (ModifiedTimes.CheckTime fsW3 ⟨[]⟩ "p.go").2 = ⟨[]⟩) ∧
    ((ModifiedTimes.CheckTime fsW3 ⟨[]⟩ "p.go").2.CheckTime fsW3 "p.go").1 = false :=
  checkTime_observe_spec fsW3 ⟨[]⟩ "p.go" 7 rfl

/-- Filesystem for the C5 counterexample: `f.py` now has mod time 3. -/
def fsBack : String → Option Nat := fun p => if p = "f.py" then some 3 else none

/-- Tracker for the C5 counterexample: `f.py` was last observed at time 5. -/
def mBack : ModifiedTimes := ⟨[("f.py", 5)]⟩

/-- Claim C5 counterexample: observing a path whose on-disk timestamp moved
backwards (stored 5, on disk 3) makes `CheckTime` replace the stored
timestamp with a strictly earlier one — the stored timestamps are not
monotonically non-decreasing. -/
theorem checkTime_not_monotone :
    lookupKey "f.py" mBack.TimeMap = some 5 ∧
    (mBack.CheckTime fsBack "f.py").2.TimeMap = [("f.py", 3)] ∧ 3 < 5 := by
  decide

/-- Claim C5 (amended): across any observation the tracker keeps at most one
entry per path (distinct keys are preserved) and no other path's entry is
touched; the observed path's stored timestamp is replaced *exactly when*
the on-disk timestamp differs from the stored one — it then becomes the
on-disk timestamp, which may be strictly earlier than the stored one,
because the code treats any differing timestamp (not only an advanced one)
as a change; an unreadable path leaves the tracker unchanged. -/
theorem checkTime_entry_uniqueness_and_update (fs : String → Option Nat)
    (m : ModifiedTimes) (path : String)
    (hkeys : (m.TimeMap.map Prod.fst).Nodup) :
    ((m.CheckTime fs path).2.TimeMap.map Prod.fst).Nodup ∧
    (∀ q, q ≠ path →
      lookupKey q (m.CheckTime fs path).2.TimeMap = lookupKey q m.TimeMap) ∧
    (∀ mt, fs path = some mt →
      lookupKey path (m.CheckTime fs path).2.TimeMap = some mt ∧
      (lookupKey path (m.CheckTime fs path).2.TimeMap ≠ lookupKey path m.TimeMap ↔
        lookupKey path m.TimeMap ≠ some mt)) ∧
    (fs path = none → (m.CheckTime fs path).2 = m) := by
  cases hfs : fs path with
  | none =>
    simp only [ModifiedTimes.CheckTime, hfs]
    refine ⟨hkeys, fun q _ => trivial, ?_, fun _ => trivial⟩
    intro mt2 hmt2
    exact absurd hmt2 (by simp)
  | some mt =>
    cases hlk : lookupKey path m.TimeMap with
    | none =>
      simp only [ModifiedTimes.CheckTime, hfs, hlk]
      refine ⟨nodup_keys_mapSet path mt _ hkeys, ?_, ?_, ?_⟩
      · intro q hq
        exact lookupKey_mapSet_other _ _ _ _ hq
      · intro mt2 hmt2
        obtain rfl : mt = mt2 := Option.some_inj.mp hmt2
        have hnew : lookupKey path (mapSet path mt m.TimeMap) = some mt :=
          lookupKey_mapSet_self _ _ _
        refine ⟨hnew, iff_of_true ?_ ?_⟩
        · simp [hnew]
        · simp
      · intro hmt2
        exact absurd hmt2 (by simp)
    | some storedTime =>
      by_cases he : storedTime = mt
      · subst he
        have hcond : ¬ (storedTime ≠ storedTime) := fun h => h rfl
        simp only [ModifiedTimes.CheckTime, hfs, hlk, if_neg hcond]
        refine ⟨hkeys, fun q _ => trivial, ?_, fun hmt2 => absurd hmt2 (by simp)⟩
        intro mt2 hmt2
        obtain rfl : storedTime = mt2 := Option.some_inj.mp hmt2
        refine ⟨rfl, iff_of_false ?_ ?_⟩
        · intro hcon
          exact hcon rfl
        · intro hcon
          exact hcon rfl
      · simp only [ModifiedTimes.CheckTime, hfs, hlk, if_pos he]
        refine ⟨nodup_keys_mapSet path mt _ hkeys, ?_, ?_, ?_⟩
        · intro q hq
          exact lookupKey_mapSet_other _ _ _ _ hq
        · intro mt2 hmt2
          obtain rfl : mt = mt2 := Option.some_inj.mp hmt2
          have hnew : lookupKey path (mapSet path mt m.TimeMap) = some mt :=
            lookupKey_mapSet_self _ _ _
          refine ⟨hnew, iff_of_true ?_ ?_⟩
          · intro hcon
            rw [hnew] at hcon
            exact he (Option.some_inj.mp hcon).symm
          · intro hcon
            exact he (Option.some_inj.mp hcon)
        · intro hmt2
          exact absurd hmt2 (by simp)

/-- Witness for `checkTime_entry_uniqueness_and_update` on the backdated
observation of `f.py` (stored 5, on disk 3): the timestamps differ, so the
stored entry is replaced — by the strictly earlier on-disk time. -/
theorem checkTime_entry_uniqueness_and_update_witness :
    ((mBack.CheckTime fsBack "f.py").2.TimeMap.map Prod.fst).Nodup ∧
    (∀ q, q ≠ "f.py" →
      lookupKey q (mBack.CheckTime fsBack "f.py").2.TimeMap = lookupKey q mBack.TimeMap) ∧
    (∀ mt, fsBack "f.py" = some mt →
      lookupKey "f.py" (mBack.CheckTime fsBack "f.py").2.TimeMap = some mt ∧
      (lookupKey "f.py" (mBack.CheckTime fsBack "f.py").2.TimeMap ≠
          lookupKey "f.py" mBack.TimeMap ↔
        lookupKey "f.py" mBack.TimeMap ≠ some mt)) ∧
    (fsBack "f.py" = none → (mBack.CheckTime fsBack "f.py").2 = mBack) :=
  checkTime_entry_uniqueness_and_update fsBack mBack "f.py" (by decide)

/-- A single-character regex atom, covering exactly the character classes
appearing in the program's `rexes` patterns.  Go's Perl classes are
ASCII-only: `\w` is `[0-9A-Za-z_]`, `\d` is `[0-9]`, `\s` is `[\t\n\f\r ]`,
and `.` is any character except newline. -/
inductive RAtom where
  | lit (c : Char)
  | wordC
  | digitC
  | spaceC
  | wordSpaceC
  | dotC
deriving DecidableEq, Repr

/-- Whether a character is in an atom's class. -/
def RAtom.accepts : RAtom → Char → Bool
  | .lit c, d => d = c
  | .wordC, d => d.isAlphanum || d = '_'
  | .digitC, d => d.isDigit
  | .spaceC, d => d = '\t' || d = '\n' || d = '\x0c' || d = '\r' || d = ' '
  | .wordSpaceC, d =>
    d.isAlphanum || d = '_' || d = '\t' || d = '\n' || d = '\x0c' || d = '\r' || d = ' '
  | .dotC, d => d ≠ '\n'

/-- Regular expressions as data, covering the constructs used by the
program's four patterns: sequencing, greedy star, capture groups, and the
multiline anchors `^` and `$` (every anchor in `rexes` is under a `(?m)`
flag). -/
inductive Regex where
  | eps
  | atom (a : RAtom)
  | seq (r1 r2 : Regex)
  | star (r : Regex)
  | group (i : Nat) (r : Regex)
  | bolm
  | eolm
deriving DecidableEq, Repr

/-- `r+` (one or more, greedy). -/
def rplus (r : Regex) : Regex := .seq r (.star r)

/-- A literal character. -/
def rchar (c : Char) : Regex := .atom (.lit c)

/-- Sequence a list of regexes. -/
def rseq (l : List Regex) : Regex := l.foldr .seq .eps

/-- Record the span of capture group `i`; the most recent span for a group
shadows older ones (Go keeps the last successful capture). -/
def setCap (i s e : Nat) (caps : List (Nat × Nat × Nat)) : List (Nat × Nat × Nat) :=
  (i, s, e) :: caps

/-- Span of capture group `i`, if it participated in the match. -/
def getCap (i : Nat) : List (Nat × Nat × Nat) → Option (Nat × Nat)
  | [] => none
  | (j, s, e) :: rest => if j = i then some (s, e) else getCap i rest

/-- Fuelled backtracking matcher in continuation-passing style, implementing
the leftmost-first (Perl-style) submatch semantics Go's `regexp` package
documents.  `k` receives the end position and captures of every candidate
match of `r` starting at `pos`, longest-preferred for greedy operators; the
first candidate `k` accepts wins.  The fuel only bounds recursion depth. -/
def reMatch (fuel : Nat) (s : List Char) (r : Regex) (pos : Nat)
    (caps : List (Nat × Nat × Nat))
    (k : Nat → List (Nat × Nat × Nat) → Option (Nat × List (Nat × Nat × Nat))) :
    Option (Nat × List (Nat × Nat × Nat)) :=
  match fuel with
  | 0 => none
  | fuel + 1 =>
    match r with
    | .eps => k pos caps
    | .atom a =>
      match s.get? pos with
      | some c => if a.accepts c then k (pos + 1) caps else none
      | none => none
    | .seq r1 r2 => reMatch fuel s r1 pos caps (fun p cs => reMatch fuel s r2 p cs k)
    | .star r1 =>
      match reMatch fuel s r1 pos caps
          (fun p cs => if p = pos then none else reMatch fuel s (.star r1) p cs k) with
      | some res => some res
      | none => k pos caps
    | .group i r1 => reMatch fuel s r1 pos caps (fun p cs => k p (setCap i pos p cs))
    | .bolm => if pos = 0 || s.get? (pos - 1) = some '\n' then k pos caps else none
    | .eolm => if pos = s.length || s.get? pos = some '\n' then k pos caps else none

/-- Fuel amply covering the recursion depth of `reMatch` for the program's
patterns: depth is bounded by the pattern size plus a few frames per
consumed character. -/
def reFuel (s : List Char) : Nat := 8 * s.length + 200

/-- Try to match `r` anchored at position `pos`; returns the match end and
captures of the leftmost-first match at that position. -/
def reMatchAt (r : Regex) (s : List Char) (pos : Nat) :
    Option (Nat × List (Nat × Nat × Nat)) :=
  reMatch (reFuel s) s r pos [] (fun p cs => some (p, cs))

/-- Scan positions `pos, pos+1, ...` (at most `n` of them) for the first
position where `r` matches — the leftmost match, as in Go's `Find`. -/
def reFindAux (r : Regex) (s : List Char) : Nat → Nat → Option (Nat × Nat × List (Nat × Nat × Nat))
  | 0, _ => none
  | n + 1, pos =>
    match reMatchAt r s pos with
    | some (e, cs) => some (pos, e, cs)
    | none => reFindAux r s n (pos + 1)

/-- `regexp.FindStringSubmatch` on `s` (as a list of characters): the
leftmost-first match with its start, end and captures. -/
def reFind (r : Regex) (s : List Char) : Option (Nat × Nat × List (Nat × Nat × Nat)) :=
  reFindAux r s (s.length + 1) 0

/-- Successive non-overlapping leftmost matches, resuming after each match
end (advancing one position past an empty match), as in Go's
`FindAllStringSubmatch` with a negative limit. -/
def reFindAllAux (r : Regex) (s : List Char) : Nat → Nat → List (Nat × Nat × List (Nat × Nat × Nat))
  | 0, _ => []
  | n + 1, pos =>
    match reFindAux r s (s.length + 1 - pos) pos with
    | none => []
    | some (b, e, cs) =>
      (b, e, cs) :: reFindAllAux r s n (if b < e then e else e + 1)

/-- `regexp.FindAllStringSubmatch` on `s`. -/
def reFindAll (r : Regex) (s : List Char) : List (Nat × Nat × List (Nat × Nat × Nat)) :=
  reFindAllAux r s (s.length + 1) 0

/-- The substring of `s` spanned by `[b, e)`. -/
def substr (s : List Char) (b e : Nat) : String :=
  ⟨(s.drop b).take (e - b)⟩

/-- Text of capture group `i` of a match ("" if the group is absent, as in
Go, where a non-participating group yields the empty string). -/
def groupStr (s : List Char) (caps : List (Nat × Nat × Nat)) (i : Nat) : String :=
  match getCap i caps with
  | some (b, e) => substr s b e
  | none => ""

/-- `rexes["pep8"]`: the pattern `\w+:(\d+):(\d+):\s(\w+)\s(.+)(?m)$`. -/
def pep8Rex : Regex := rseq [
  rplus (.atom .wordC), rchar ':',
  .group 1 (rplus (.atom .digitC)), rchar ':',
  .group 2 (rplus (.atom .digitC)), rchar ':',
  .atom .spaceC,
  .group 3 (rplus (.atom .wordC)),
  .atom .spaceC,
  .group 4 (rplus (.atom .dotC)),
  .eolm]

/-- `rexes["pylint"]`: the pattern `(?m)^(\w):\s+(\d+),\s*(\d+):\s(.+)$`. -/
def pylintRex : Regex := rseq [
  .bolm,
  .group 1 (.atom .wordC), rchar ':',
  rplus (.atom .spaceC),
  .group 2 (rplus (.atom .digitC)), rchar ',',
  .star (.atom .spaceC),
  .group 3 (rplus (.atom .digitC)), rchar ':',
  .atom .spaceC,
  .group 4 (rplus (.atom .dotC)),
  .eolm]

/-- `rexes["blameName"]`: the pattern `\(([\w\s]+)\d{4}`. -/
def blameNameRex : Regex := rseq [
  rchar '(',
  .group 1 (rplus (.atom .wordSpaceC)),
  .atom .digitC, .atom .digitC, .atom .digitC, .atom .digitC]

/-- `rexes["goBuild"]`: the pattern `\w+:(\d+):\s(.+)(?m)$`. -/
def goBuildRex : Regex := rseq [
  rplus (.atom .wordC), rchar ':',
  .group 1 (rplus (.atom .digitC)), rchar ':',
  .atom .spaceC,
  .group 2 (rplus (.atom .dotC)),
  .eolm]

/-- ASCII whitespace as trimmed by Go's `strings.TrimSpace` (the program's
inputs are ASCII). -/
def goIsSpace (c : Char) : Bool :=
  c = ' ' || c = '\t' || c = '\n' || c = '\x0b' || c = '\x0c' || c = '\r'

/-- `strings.TrimSpace`. -/
def trimSpace (s : String) : String :=
  ⟨((s.data.dropWhile goIsSpace).reverse.dropWhile goIsSpace).reverse⟩

/-- Accumulator loop of `splitNl`. -/
def splitNlAux : List Char → List Char → List String
  | [], acc => [⟨acc.reverse⟩]
  | c :: rest, acc =>
    if c = '\n' then ⟨acc.reverse⟩ :: splitNlAux rest []
    else splitNlAux rest (c :: acc)

/-- `strings.Split(s, "\n")` (never empty: splitting "" yields [""]). -/
def splitNl (s : String) : List String := splitNlAux s.data []

/-- Scan of a reversed path for `extOf`, stopping at a path separator. -/
def extRevAux : List Char → List Char → Option (List Char)
  | [], _ => none
  | c :: rest, acc =>
    if c = '/' then none
    else if c = '.' then some (c :: acc)
    else extRevAux rest (c :: acc)

/-- `filepath.Ext`: the suffix beginning at the final dot in the final
slash-separated element of the path, empty if there is no dot. -/
def extOf (path : String) : String :=
  match extRevAux path.data.reverse [] with
  | some cs => ⟨cs⟩
  | none => ""

/-- Digits part of `parseIntGo`. -/
def parseIntDigits (sign : Int) (ds : List Char) : Option Int :=
  if ds.isEmpty || !ds.all Char.isDigit then none
  else
    let v : Int := sign * (ds.foldl (fun acc c => acc * 10 + (c.toNat - 48)) 0 : Nat)
    if -9223372036854775808 ≤ v ∧ v ≤ 9223372036854775807 then some v else none

/-- `strconv.ParseInt(s, 10, 0)`: optional sign, non-empty decimal digits,
failing on any other character, on the empty string, and on 64-bit
overflow. -/
def parseIntGo (s : String) : Option Int :=
  match s.data with
  | '+' :: rest => parseIntDigits 1 rest
  | '-' :: rest => parseIntDigits (-1) rest
  | cs => parseIntDigits 1 cs

/-- `Wart` from lintblame.go: one diagnostic. -/
structure Wart where
  Reporter : String
  Line : Int
  Column : Int
  IssueCode : String
  Message : String
deriving DecidableEq, Repr

/-- `NewWart` from lintblame.go (lines 286-304): coerces the two numeric
fields with `strconv.ParseInt`; a failed parse reaches `log.Fatalf`,
modelled as `Except.error` carrying the fatal message. -/
def NewWart (reporter line column issueCode message : String) : Except String Wart :=
  match parseIntGo line with
  | none => .error ("Failed parsing line number " ++ line)
  | some l =>
    match parseIntGo column with
    | none => .error ("Failed parsing column number " ++ column)
    | some c =>
      .ok { Reporter := reporter, Line := l, Column := c,
            IssueCode := issueCode, Message := message }

/-- `TargetFile` from lintblame.go.  `Warts` is the Go `map[int][]Wart` as
an association list in key-insertion order. -/
structure TargetFile where
  Path : String
  ContentLines : List String
  BlameLines : List String
  Warts : List (Int × List Wart)
deriving DecidableEq, Repr

/-- `TargetFile.ExtEquals`. -/
def TargetFile.ExtEquals (tf : TargetFile) (ext : String) : Bool :=
  extOf tf.Path = ext

/-- The map update of `TargetFile.AddWart`: append `w` to the bucket of its
line, creating the bucket if absent. -/
def addWartAux : List (Int × List Wart) → Wart → List (Int × List Wart)
  | [], w => [(w.Line, [w])]
  | (l, ws) :: rest, w =>
    if l = w.Line then (l, ws ++ [w]) :: rest else (l, ws) :: addWartAux rest w

/-- `TargetFile.AddWart`. -/
def TargetFile.AddWart (tf : TargetFile) (w : Wart) : TargetFile :=
  { tf with Warts := addWartAux tf.Warts w }

/-- `TargetFile.Blame` (lines 313-322): when the external `git blame` fails
the blame lines become empty; on success they are the captured output split
on newlines. -/
def TargetFile.Blame (blameOut : Option String) (tf : TargetFile) : TargetFile :=
  match blameOut with
  | none => { tf with BlameLines := [] }
  | some out => { tf with BlameLines := splitNl out }

/-- The (line, column, code, message) capture texts of each `pep8` match. -/
def pep8Groups (output : String) : List (String × String × String × String) :=
  (reFindAll pep8Rex output.data).map
    (fun m => (groupStr output.data m.2.2 1, groupStr output.data m.2.2 2,
      groupStr output.data m.2.2 3, groupStr output.data m.2.2 4))

/-- The (severity, line, column, message) capture texts of each `pylint`
match. -/
def pylintGroups (output : String) : List (String × String × String × String) :=
  (reFindAll pylintRex output.data).map
    (fun m => (groupStr output.data m.2.2 1, groupStr output.data m.2.2 2,
      groupStr output.data m.2.2 3, groupStr output.data m.2.2 4))

/-- The (line, message) capture texts of each `goBuild` match. -/
def goBuildGroups (output : String) : List (String × String) :=
  (reFindAll goBuildRex output.data).map
    (fun m => (groupStr output.data m.2.2 1, groupStr output.data m.2.2 2))

/-- The adapter loop body: build each `Wart` — stopping fatally on a parse
failure exactly as `NewWart` does — and add it to the file's index. -/
def addWarts {α : Type} (mk : α → Except String Wart) :
    List α → TargetFile → Except String TargetFile
  | [], tf => .ok tf
  | g :: rest, tf =>
    match mk g with
    | .error e => .error e
    | .ok w => addWarts mk rest (tf.AddWart w)

/-- `TargetFile.Pep8` (lines 335-346): gated on the `.py` extension;
`output` is the captured output of the external `pep8` run (whose error the
source discards).  Field order is (line, column, code, message). -/
def TargetFile.Pep8 (output : String) (tf : TargetFile) : Except String TargetFile :=
  if extOf tf.Path ≠ ".py" then .ok tf
  else addWarts (fun g => NewWart "PEP8" g.1 g.2.1 g.2.2.1 g.2.2.2) (pep8Groups output) tf

/-- `TargetFile.PyLint` (lines 375-386): gated on `.py`; field order is
(severity-letter, line, column, message), so `NewWart` receives
(tool, group 2, group 3, group 1, group 4). -/
def TargetFile.PyLint (output : String) (tf : TargetFile) : Except String TargetFile :=
  if extOf tf.Path ≠ ".py" then .ok tf
  else addWarts (fun g => NewWart "Pylint" g.2.1 g.2.2.1 g.1 g.2.2.2) (pylintGroups output) tf

/-- `TargetFile.GoCmd` (lines 349-362): gated on `.go`; the reporter is the
go sub-command, the column defaults to "0" and the issue code to "-".  The
working-directory change and the external `go` invocation are modelled by
the captured `output`. -/
def TargetFile.GoCmd (goCmd : String) (output : String) (tf : TargetFile) :
    Except String TargetFile :=
  if !tf.ExtEquals ".go" then .ok tf
  else addWarts (fun g => NewWart goCmd g.1 "0" "-" g.2) (goBuildGroups output) tf

/-- `TargetFile.GoBuild`: `GoCmd "build"`. -/
def TargetFile.GoBuild (output : String) (tf : TargetFile) : Except String TargetFile :=
  tf.GoCmd "build" output

/-- `TargetFile.GoVet`: `GoCmd "vet"`. -/
def TargetFile.GoVet (output : String) (tf : TargetFile) : Except String TargetFile :=
  tf.GoCmd "vet" output

/-- Group 1 of the `blameName` pattern's leftmost match in a blame line, or
`none` when `FindStringSubmatch` returns nil. -/
def blameNameSub (bl : String) : Option String :=
  match reFind blameNameRex bl.data with
  | none => none
  | some m => some (groupStr bl.data m.2.2 1)

/-- The last two statements of `TargetFile.BlameName` applied to one blame
line: `match[1]` on a nil `FindStringSubmatch` result is a nil-dereference
panic, otherwise the trimmed capture is the author name. -/
def blameLineName (bl : String) : Except String String :=
  match blameNameSub bl with
  | none => .error "runtime error: invalid memory address or nil pointer dereference"
  | some g1 => .ok (trimSpace g1)

/-- `TargetFile.BlameName` (lines 389-395).  The Go method indexes
`tf.BlameLines[line-1]` and dereferences `match[1]`; the two possible
runtime panics are modelled as errors: an out-of-range line, and a nil
`FindStringSubmatch` result.  The sentinel "-" is returned only when the
blame line sequence is empty. -/
def TargetFile.BlameName (tf : TargetFile) (line : Int) : Except String String :=
  if tf.BlameLines.length = 0 then .ok "-"
  else if line < 1 then .error "runtime error: index out of range"
  else
    match tf.BlameLines.get? (line - 1).toNat with
    | none => .error "runtime error: index out of range"
    | some bl => blameLineName bl

/-- The external collaborators of `NewTargetFile`: the file content read by
`ioutil.ReadFile` (`none` = unreadable), the captured output of `git blame`
(`none` = failure), and the captured outputs of the four analyzer runs
(their errors are discarded by the source; a tool that fails to launch
contributes the empty string). -/
structure Externals where
  readFile : Option String
  blameOut : Option String
  pep8Out : String
  pylintOut : String
  goBuildOut : String
  goVetOut : String
deriving DecidableEq, Repr

/-- `NewTargetFile` (lines 398-414): reads the content — reaching
`log.Fatal`, modelled as `Except.error`, when the file is unreadable — then
runs blame and the four adapters in source order. -/
def NewTargetFile (ext : Externals) (path : String) : Except String TargetFile :=
  match ext.readFile with
  | none => .error ("Unable to read file " ++ path)
  | some content =>
    let tf0 := TargetFile.Blame ext.blameOut
      { Path := path, ContentLines := splitNl content, BlameLines := [], Warts := [] }
    match TargetFile.Pep8 ext.pep8Out tf0 with
    | .error e => .error e
    | .ok tf1 =>
      match TargetFile.PyLint ext.pylintOut tf1 with
      | .error e => .error e
      | .ok tf2 =>
        match TargetFile.GoBuild ext.goBuildOut tf2 with
        | .error e => .error e
        | .ok tf3 =>
          match TargetFile.GoVet ext.goVetOut tf3 with
          | .error e => .error e
          | .ok tf4 => .ok tf4

/-- Claim C6: for a file without blame-attribution text (empty blame line
sequence), `BlameName` returns the "unknown" sentinel "-" for every
requested line, never an error. -/
theorem blameName_empty_returns_sentinel (tf : TargetFile) (hempty : tf.BlameLines = [])
    (line : Int) : tf.BlameName line = .ok "-" := by
  rw [TargetFile.BlameName, if_pos (by simp [hempty])]

/-- Witness for `blameName_empty_returns_sentinel` at lines 1 and 42 of a
file whose `git blame` failed. -/
theorem blameName_empty_returns_sentinel_witness :
    TargetFile.BlameName ⟨"a.py", ["x"], [], []⟩ 1 = .ok "-" ∧
    TargetFile.BlameName ⟨"a.py", ["x"], [], []⟩ 42 = .ok "-" :=
  ⟨blameName_empty_returns_sentinel ⟨"a.py", ["x"], [], []⟩ rfl 1,
   blameName_empty_returns_sentinel ⟨"a.py", ["x"], [], []⟩ rfl 42⟩

/-- Claim C7: `NewWart` returns the diagnostic with the parsed integer
fields when both numeric strings parse, and reaches `log.Fatalf` (a fatal
configuration stop, modelled as `Except.error`) when either fails to parse
— it never silently drops the diagnostic. -/
theorem newWart_fatal_on_unparsable (reporter line column issueCode message : String) :
    (∀ l c, parseIntGo line = some l → parseIntGo column = some c →
      NewWart reporter line column issueCode message =
        .ok ⟨reporter, l, c, issueCode, message⟩) ∧
    (parseIntGo line = none →
      NewWart reporter line column issueCode message =
        .error ("Failed parsing line number " ++ line)) ∧
    (∀ l, parseIntGo line = some l → parseIntGo column = none →
      NewWart reporter line column issueCode message =
        .error ("Failed parsing column number " ++ column)) := by
  refine ⟨?_, ?_, ?_⟩
  · intro l c hl hc
    rw [NewWart, hl, hc]
  · intro hl
    rw [NewWart, hl]
  · intro l hl hc
    rw [NewWart, hl, hc]

/-- Witness for `newWart_fatal_on_unparsable`: a parsable pair yields the
diagnostic; an unparsable line or column is fatal with the source's
message. -/
theorem newWart_fatal_on_unparsable_witness :
    NewWart "PEP8" "12" "4" "E1" "bad" = .ok ⟨"PEP8", 12, 4, "E1", "bad"⟩ ∧
    NewWart "PEP8" "x" "4" "E1" "bad" = .error "Failed parsing line number x" ∧
    NewWart "PEP8" "12" "y" "E1" "bad" = .error "Failed parsing column number y" :=
  ⟨(newWart_fatal_on_unparsable "PEP8" "12" "4" "E1" "bad").1 12 4 rfl rfl,
   (newWart_fatal_on_unparsable "PEP8" "x" "4" "E1" "bad").2.1 rfl,
   (newWart_fatal_on_unparsable "PEP8" "12" "y" "E1" "bad").2.2 12 rfl rfl⟩

/-- Claim C8: the `PyLint` adapter, on a `.py` file with raw output
`W: 12, 4: unused import`, extracts exactly one diagnostic: reporter
"Pylint", line 12, column 4, issue code "W", message "unused import",
honouring the (severity, line, column, message) field order. -/
theorem pyLint_extracts_expected_wart :
    TargetFile.PyLint "W: 12, 4: unused import" ⟨"x.py", [], [], []⟩ =
      .ok ⟨"x.py", [], [], [(12, [⟨"Pylint", 12, 4, "W", "unused import"⟩])]⟩ := by
  rfl

/-- Claim C9: the `GoCmd` adapter, on a `.go` file with raw output
`file.go:7: undefined: foo`, extracts exactly one diagnostic with line 7,
default column 0, default issue code "-", and message "undefined: foo". -/
theorem goCmd_extracts_expected_wart :
    TargetFile.GoCmd "build" "file.go:7: undefined: foo" ⟨"file.go", [], [], []⟩ =
      .ok ⟨"file.go", [], [], [(7, [⟨"build", 7, 0, "-", "undefined: foo"⟩])]⟩ := by
  rfl

/-- Claim C10: with a non-empty blame line sequence, `BlameName` succeeds
exactly under the precondition that the 1-based line is in range and the
addressed blame line contains a match of the `blameName` pattern; an
out-of-range line is an index-out-of-range panic and a non-matching line a
nil-dereference panic — the sentinel branch guards only the empty case. -/
theorem blameName_panics_outside_guard (tf : TargetFile) (line : Int)
    (hne : tf.BlameLines ≠ []) :
    (∀ bl, 1 ≤ line → tf.BlameLines.get? (line - 1).toNat = some bl →
      (blameNameSub bl).isSome = true → (tf.BlameName line).isOk = true) ∧
    (¬(1 ≤ line ∧ line ≤ tf.BlameLines.length) →
      tf.BlameName line = .error "runtime error: index out of range") ∧
    (∀ bl, 1 ≤ line → tf.BlameLines.get? (line - 1).toNat = some bl →
      blameNameSub bl = none →
      tf.BlameName line =
        .error "runtime error: invalid memory address or nil pointer dereference") := by
  have hlen : ¬ tf.BlameLines.length = 0 := fun h => hne (List.eq_nil_of_length_eq_zero h)
  refine ⟨?_, ?_, ?_⟩
  · intro bl h1 hget hsome
    rw [TargetFile.BlameName, if_neg hlen, if_neg (not_lt.mpr h1)]
    cases hsub : blameNameSub bl with
    | none => rw [hsub] at hsome; simp at hsome
    | some g =>
      simp only [hget, blameLineName, hsub, Except.isOk]
      rfl
  · intro hnot
    by_cases hl1 : line < 1
    · rw [TargetFile.BlameName, if_neg hlen, if_pos hl1]
    · have h1 : 1 ≤ line := not_lt.mp hl1
      have h2 : ¬ line ≤ (tf.BlameLines.length : Int) := fun hle => hnot ⟨h1, hle⟩
      have hge : tf.BlameLines.length ≤ (line - 1).toNat := by omega
      rw [TargetFile.BlameName, if_neg hlen, if_neg hl1, List.get?_eq_none.mpr hge]
  · intro bl h1 hget hsub
    rw [TargetFile.BlameName, if_neg hlen, if_neg (not_lt.mpr h1)]
    simp only [hget, blameLineName, hsub]

/-- Blame lines for the `blameName_panics_outside_guard` witness: line 1
matches the attribution pattern, line 2 does not. -/
def tfBlame : TargetFile :=
  ⟨"a.go", [], ["abc (Harvey R 2014-01-01 10:00) package main", "not a blame line"], []⟩

/-- Witness for `blameName_panics_outside_guard`: a matching in-range line
succeeds, line 3 of a 2-line blame is an index panic, and the non-matching
line 2 is a nil-dereference panic. -/
theorem blameName_panics_outside_guard_witness :
    (TargetFile.BlameName tfBlame 1).isOk = true ∧
    TargetFile.BlameName tfBlame 3 = .error "runtime error: index out of range" ∧
    TargetFile.BlameName tfBlame 2 =
      .error "runtime error: invalid memory address or nil pointer dereference" :=
  ⟨(blameName_panics_outside_guard tfBlame 1 (by decide)).1
      "abc (Harvey R 2014-01-01 10:00) package main" (by decide) rfl rfl,
   (blameName_panics_outside_guard tfBlame 3 (by decide)).2.1 (by decide),
   (blameName_panics_outside_guard tfBlame 2 (by decide)).2.2
      "not a blame line" (by decide) rfl rfl⟩

/-- Externals for the C4 counterexample: the file content is unreadable. -/
def extUnreadable : Externals := ⟨none, none, "", "", "", ""⟩

/-- Claim C4 counterexample: when one file's content is unreadable,
`NewTargetFile` reaches `log.Fatal` — modelled as the error result — which
terminates the whole process, aborting every other file of the fan-out and
the polling loop, instead of degrading only that file's result. -/
theorem newTargetFile_unreadable_fatal :
    NewTargetFile extUnreadable "a.py" = .error "Unable to read file a.py" := rfl

lemma pep8_empty_output (tf : TargetFile) : TargetFile.Pep8 "" tf = .ok tf := by
  rw [TargetFile.Pep8]
  split <;> rfl

lemma pylint_empty_output (tf : TargetFile) : TargetFile.PyLint "" tf = .ok tf := by
  rw [TargetFile.PyLint]
  split <;> rfl

lemma goCmd_empty_output (goCmd : String) (tf : TargetFile) :
    TargetFile.GoCmd goCmd "" tf = .ok tf := by
  rw [TargetFile.GoCmd]
  split <;> rfl

/-- Claim C4 (amended): the *non-fatal* failure modes are isolated — with
readable content, a failed `git blame` (empty blame) and analyzer tools
that fail to launch or exit non-zero with nothing captured (empty output)
still produce a successful `TargetFile` with empty blame lines and an empty
diagnostic index; unreadable file content, however, is process-fatal (see
the counterexample), not merely degrading. -/
theorem newTargetFile_degrades_nonfatal_failures (ext : Externals)
    (path content : String) (hread : ext.readFile = some content)
    (hblame : ext.blameOut = none) (hp8 : ext.pep8Out = "")
    (hpl : ext.pylintOut = "") (hgb : ext.goBuildOut = "") (hgv : ext.goVetOut = "") :
    NewTargetFile ext path =
      .ok { Path := path, ContentLines := splitNl content,
            BlameLines := [], Warts := [] } := by
  rw [NewTargetFile, hread, hblame, hp8, hpl, hgb, hgv]
  simp only [TargetFile.Blame, TargetFile.GoBuild, TargetFile.GoVet,
    pep8_empty_output, pylint_empty_output, goCmd_empty_output]

/-- Externals for the C4 amended witness: readable two-line content, blame
failed, all four analyzer runs captured nothing. -/
def extDegraded : Externals := ⟨some "package main\nfunc x", none, "", "", "", ""⟩

/-- Witness for `newTargetFile_degrades_nonfatal_failures`. -/
theorem newTargetFile_degrades_nonfatal_failures_witness :
    NewTargetFile extDegraded "m.go" =
      .ok { Path := "m.go", ContentLines := splitNl "package main\nfunc x",
            BlameLines := [], Warts := [] } :=
  newTargetFile_degrades_nonfatal_failures extDegraded "m.go" "package main\nfunc x"
    rfl rfl rfl rfl rfl rfl
